import Mathlib

/-!
Verification of the PD request-routing / stream-forwarding front-end.

The Go source is shallowly embedded: machine integers are `Nat`/`Int` with
explicit reductions modulo `2^32` (Go `uint32`) or wraparound at 64 bits
(Go `int64`) where the source arithmetic can overflow; fallible code
returns `Except`; imperative loops become structural recursion or folds;
concurrency-visible quantities (the observed fill of a bounded channel,
the completion behaviour of an underlying stream call) become explicit
parameters of the embedded operation.
-/

namespace PD

/-! ### 64-bit two's-complement wraparound (Go `int64` arithmetic) -/

/-- Reduce an unbounded integer to the `int64` value with the same
residue modulo `2^64`, i.e. Go's two's-complement wraparound. -/
def wrap64 (z : Int) : Int := (z + 2 ^ 63) % 2 ^ 64 - 2 ^ 63

/-! ### TSO proxy dispatcher: request merging and response splitting
(`TSODispatcher.processRequests`, `addLogical`, `TSODispatcher.finishRequest`
in `pkg/utils/tsoutil`). -/

/-- `maxMergeRequests` constant of the dispatcher. -/
def maxMergeRequests : Nat := 10000

/-- The data of one proxied TSO sub-request that the merge logic reads:
its `count` field (a Go `uint32`, hence `< 2^32`). -/
structure TsoProxyRequest where
  count : Nat
  deriving Repr, DecidableEq

/-- The timestamp carried by the upstream response:
`physical`/`logical` are Go `int64`, `suffixBits` a Go `uint32`. -/
structure TsoTimestamp where
  physical   : Int
  logical    : Int
  suffixBits : Nat
  deriving Repr, DecidableEq

/-- The merge loop of `processRequests`:
`count := uint32(0); for _, request := range requests { count += request.getCount() }`.
Each `+=` is `uint32` addition, i.e. addition modulo `2^32`. -/
def mergeCount (requests : List TsoProxyRequest) : Nat :=
  requests.foldl (fun acc r => (acc + r.count) % 2 ^ 32) 0

/-- The mathematical (unwrapped) sum of the batch's `count` fields. -/
def totalCount (rs : List TsoProxyRequest) : Nat := (rs.map (·.count)).sum

/-- `addLogical(logical, count, suffixBits) = logical + count<<suffixBits`
on Go `int64`: the shift and the addition both wrap at 64 bits. -/
def addLogical (logical count : Int) (suffixBits : Nat) : Int :=
  wrap64 (logical + wrap64 (count * 2 ^ suffixBits))

/-- Modelled from the spec: `Request.postProcess` lives in
`pkg/utils/tsoutil/tso_request.go`, which is not under `src/` (only its
caller `finishRequest` is). Per the spec, walking the batch in order each
request receives a contiguous sub-range of logical values: with `countSum`
logical slots already assigned to earlier requests, a request of count `c`
receives the `c` timestamps
`(physical, addLogical firstLogical (countSum + j + 1) suffixBits)` for
`j = 0 .. c-1`, and returns the new running sum `countSum + c`. -/
def postProcess (c : Nat) (countSum : Int) (physical firstLogical : Int)
    (suffixBits : Nat) : Int × List (Int × Int) :=
  (countSum + c,
    (List.range c).map fun (j : Nat) =>
      (physical, addLogical firstLogical (countSum + (j : Int) + 1) suffixBits))

/-- The loop body of `finishRequest`: thread `countSum` through the batch in
order, collecting each request's assigned sub-range. -/
def finishRequestAux (requests : List TsoProxyRequest) (countSum : Int)
    (physical firstLogical : Int) (suffixBits : Nat) : List (List (Int × Int)) :=
  match requests with
  | [] => []
  | r :: rest =>
    let res := postProcess r.count countSum physical firstLogical suffixBits
    res.2 :: finishRequestAux rest res.1 physical firstLogical suffixBits

/-- `TSODispatcher.finishRequest`: starts the running count sum at 0. -/
def finishRequest (requests : List TsoProxyRequest) (physical firstLogical : Int)
    (suffixBits : Nat) : List (List (Int × Int)) :=
  finishRequestAux requests 0 physical firstLogical suffixBits

/-- `TSODispatcher.processRequests`: merge the counts, send one request of the
merged count (the send itself is I/O and is not modelled), compute
`firstLogical = addLogical(logical, -int64(count), suffixBits)` from the
response timestamp, and split via `finishRequest`. Returns the merged count,
the first logical, and the per-request sub-ranges. -/
def processRequests (requests : List TsoProxyRequest) (ts : TsoTimestamp) :
    Nat × Int × List (List (Int × Int)) :=
  let count := mergeCount requests
  let firstLogical := addLogical ts.logical (-(count : Int)) ts.suffixBits
  (count, firstLogical, finishRequest requests ts.physical firstLogical ts.suffixBits)

/-! ### TSO proxy dispatcher: the batch-collection (drain) loop of
`TSODispatcher.dispatch` and the queue creation of `DispatchRequest`. -/

/-- Capacity of the per-queue bounded request channel:
`make(chan Request, maxMergeRequests+1)` in `DispatchRequest`. -/
def requestChCapacity : Nat := maxMergeRequests + 1

/-- Length of the pre-allocated batch slice:
`requests := make([]Request, maxMergeRequests+1)` in `dispatch`. -/
def requestsSliceLen : Nat := maxMergeRequests + 1

/-- `pendingTSOReqCount := len(tsoQueue.requestCh) + 1`, where `chLen` is the
channel fill observed at that line, after the first request was dequeued
(concurrent producers may have refilled the channel up to its capacity
by then). -/
def pendingTSOReqCount (chLen : Nat) : Nat := chLen + 1

/-- The slice indices written by the drain loop
`for i := 1; i < pendingTSOReqCount; i++ { requests[i] = <-tsoQueue.requestCh }`. -/
def drainWriteIndices (chLen : Nat) : List Nat :=
  (List.range (pendingTSOReqCount chLen - 1)).map (· + 1)

/-- A Go slice write `s[i] = x` is in bounds iff `i < len(s)`; otherwise it
panics with index out of range. -/
def sliceWriteInBounds (len i : Nat) : Bool := i < len

/-! ### Stream guards (`tsoServer`, `heartbeatServer`, `bucketHeartbeatServer`
in `server/grpc_service.go`). Each operation is embedded as a function of the
guard's `closed` flag and of how the underlying stream call behaves during
the operation's wait. -/

/-- Behaviour of the underlying stream call relative to the guard
operation's wait: it completes successfully in time, completes with an
error in time, or does not complete within the operation's window. -/
inductive UnderlyingEvent
  | ok
  | fail
  | hang
  deriving DecidableEq, Repr

/-- What a guard operation returns to its caller. -/
inductive GuardReturn
  | retOk          -- nil error / the received message
  | retEOF         -- io.EOF short-circuit
  | retCanceled    -- gRPC `Canceled` short-circuit (bucket guard's send)
  | retErr         -- the underlying error, wrapped by errors.WithStack
  | retTimeoutErr  -- the guard's own timeout error
  | noReturn       -- the operation does not return (no timer to interrupt it)
  deriving DecidableEq, Repr

/-- Result of one guard operation: what it returned, the `closed` flag
afterwards, and whether the underlying stream call was started. -/
structure GuardOutcome where
  ret     : GuardReturn
  closed  : Bool
  invoked : Bool
  deriving DecidableEq, Repr

/-- `tsoServer.send`: EOF short-circuit when closed; otherwise races
`stream.Send` on a helper goroutine against a `DefaultTSOProxyTimeout`
timer; any error or a timeout stores `closed = 1`; a timeout returns
`ErrForwardTSOTimeout`. -/
def tsoServerSend (closed : Bool) (ev : UnderlyingEvent) : GuardOutcome :=
  if closed then ⟨.retEOF, closed, false⟩
  else match ev with
    | .ok   => ⟨.retOk, false, true⟩
    | .fail => ⟨.retErr, true, true⟩
    | .hang => ⟨.retTimeoutErr, true, true⟩

/-- `tsoServer.recv`: EOF short-circuit when closed; otherwise races
`stream.Recv` on a helper goroutine against a timer of the caller-supplied
timeout; an error or a timeout stores `closed = 1`; a timeout returns
`ErrTSOProxyRecvFromClientTimeout`. -/
def tsoServerRecv (closed : Bool) (ev : UnderlyingEvent) : GuardOutcome :=
  if closed then ⟨.retEOF, closed, false⟩
  else match ev with
    | .ok   => ⟨.retOk, false, true⟩
    | .fail => ⟨.retErr, true, true⟩
    | .hang => ⟨.retTimeoutErr, true, true⟩

/-- `heartbeatServer.Send`: EOF short-circuit when closed; otherwise races
`stream.Send` against a `heartbeatSendTimeout` timer; a timeout returns
`ErrSendHeartbeatTimeout`. -/
def heartbeatServerSend (closed : Bool) (ev : UnderlyingEvent) : GuardOutcome :=
  if closed then ⟨.retEOF, closed, false⟩
  else match ev with
    | .ok   => ⟨.retOk, false, true⟩
    | .fail => ⟨.retErr, true, true⟩
    | .hang => ⟨.retTimeoutErr, true, true⟩

/-- `heartbeatServer.Recv`: EOF short-circuit when closed; otherwise calls
`stream.Recv` directly, with no helper goroutine and no timer: an error
stores `closed = 1`, and if the underlying call does not complete the
operation does not return. -/
def heartbeatServerRecv (closed : Bool) (ev : UnderlyingEvent) : GuardOutcome :=
  if closed then ⟨.retEOF, closed, false⟩
  else match ev with
    | .ok   => ⟨.retOk, false, true⟩
    | .fail => ⟨.retErr, true, true⟩
    | .hang => ⟨.noReturn, false, true⟩

/-- `bucketHeartbeatServer.send`: when closed returns a gRPC `Canceled`
status ("stream is closed"); otherwise races `stream.SendAndClose` against
a `heartbeatSendTimeout` timer. -/
def bucketHeartbeatServerSend (closed : Bool) (ev : UnderlyingEvent) : GuardOutcome :=
  if closed then ⟨.retCanceled, closed, false⟩
  else match ev with
    | .ok   => ⟨.retOk, false, true⟩
    | .fail => ⟨.retErr, true, true⟩
    | .hang => ⟨.retTimeoutErr, true, true⟩

/-- `bucketHeartbeatServer.recv`: EOF short-circuit when closed; otherwise
calls `stream.Recv` directly, with no timer. -/
def bucketHeartbeatServerRecv (closed : Bool) (ev : UnderlyingEvent) : GuardOutcome :=
  if closed then ⟨.retEOF, closed, false⟩
  else match ev with
    | .ok   => ⟨.retOk, false, true⟩
    | .fail => ⟨.retErr, true, true⟩
    | .hang => ⟨.noReturn, false, true⟩

/-- Index of the six guard operations. -/
inductive GuardOp
  | tsoSend
  | tsoRecv
  | hbSend
  | hbRecv
  | bucketSend
  | bucketRecv
  deriving DecidableEq, Repr

/-- Dispatch to the individual guard operations. -/
def guardStep : GuardOp → Bool → UnderlyingEvent → GuardOutcome
  | .tsoSend    => tsoServerSend
  | .tsoRecv    => tsoServerRecv
  | .hbSend     => heartbeatServerSend
  | .hbRecv     => heartbeatServerRecv
  | .bucketSend => bucketHeartbeatServerSend
  | .bucketRecv => bucketHeartbeatServerRecv

/-- The send-direction operations among the six. -/
def isSendOp : GuardOp → Bool
  | .tsoSend | .hbSend | .bucketSend => true
  | .tsoRecv | .hbRecv | .bucketRecv => false

/-- `tsoutil.DefaultTSOProxyTimeout = 3 * time.Second`, in seconds. -/
def DefaultTSOProxyTimeout : Nat := 3

/-- `heartbeatSendTimeout = 5 * time.Second`, in seconds. -/
def heartbeatSendTimeout : Nat := 5

/-- The timer (in seconds) each guard operation arms, if any; `recvTimeout`
is the caller-supplied timeout of `tsoServer.recv`. `heartbeatServer.Recv`
and `bucketHeartbeatServer.recv` arm no timer at all. -/
def guardTimerSeconds (recvTimeout : Nat) : GuardOp → Option Nat
  | .tsoSend    => some DefaultTSOProxyTimeout
  | .tsoRecv    => some recvTimeout
  | .hbSend     => some heartbeatSendTimeout
  | .hbRecv     => none
  | .bucketSend => some heartbeatSendTimeout
  | .bucketRecv => none

/-! ### Min-TS aggregation (`GrpcServer.GetMinTSFromTSOService`). -/

/-- One collected `tsopb.GetMinTSResponse`: the two `uint32` counters and
the timestamp. -/
structure GetMinTSResp where
  keyspaceGroupsTotal   : Nat
  keyspaceGroupsServing : Nat
  timestamp             : TsoTimestamp
  deriving Repr, DecidableEq

/-- Modelled from the spec: `tsoutil.CompareTimestamp` is not under `src/`.
Per the spec, timestamps are ordered by `(physical, logical)`
lexicographically (`suffixBits` does not participate); the result is
`1`, `0` or `-1`. -/
def compareTimestamp (a b : TsoTimestamp) : Int :=
  if a.physical > b.physical ∨ (a.physical = b.physical ∧ a.logical > b.logical) then 1
  else if a.physical = b.physical ∧ a.logical = b.logical then 0
  else -1

/-- `emptyTS := &pdpb.Timestamp{}`. -/
def emptyTS : TsoTimestamp := ⟨0, 0, 0⟩

/-- Strict lexicographic order on `(physical, logical)`; the order that
`compareTimestamp` decides. -/
def tsLexLt (a b : TsoTimestamp) : Prop :=
  a.physical < b.physical ∨ (a.physical = b.physical ∧ a.logical < b.logical)

instance (a b : TsoTimestamp) : Decidable (tsLexLt a b) := by
  unfold tsLexLt; infer_instance

/-- A timestamp is positive when it compares above the empty timestamp. -/
def tsPositive (t : TsoTimestamp) : Prop := 0 < compareTimestamp t emptyTS

instance (t : TsoTimestamp) : Decidable (tsPositive t) := by
  unfold tsPositive; infer_instance

/-- The `minTS` update of the response loop:
`if CompareTimestamp(resp.Timestamp, emptyTS) > 0 && (minTS == nil ||
CompareTimestamp(resp.Timestamp, minTS) < 0) { minTS = resp.Timestamp }`. -/
def updateMinTS (m : Option TsoTimestamp) (t : TsoTimestamp) : Option TsoTimestamp :=
  if (decide (0 < compareTimestamp t emptyTS) &&
      (match m with
       | none => true
       | some mm => decide (compareTimestamp t mm < 0))) then some t else m

/-- The running `minTS` of the response loop, as a fold of `updateMinTS`
over the responses. -/
def minFold (rs : List GetMinTSResp) (m : Option TsoTimestamp) : Option TsoTimestamp :=
  rs.foldl (fun mm r => updateMinTS mm r.timestamp) m

/-- The failure modes produced inside `GetMinTSFromTSOService` via
`errs.ErrGetMinTS`. -/
inductive GetMinTSReason
  | noTsoServers       -- "no tso servers/pods discovered"
  | noneResponded      -- "none of tso server/pod responded"
  | noKeyspaceGroup    -- "the tso service has no keyspace group"
  | inconsistentTotal  -- "... inconsistent keyspace group total count"
  | notAllAsked        -- "can't query all the tso keyspace groups ..."
  | notReady           -- "the tso service is not ready"
  deriving DecidableEq, Repr

/-- The errors `GetMinTSFromTSOService` can return: `ErrNotStarted` when the
server is closed, otherwise always an `errs.ErrGetMinTS`. -/
inductive GetMinTSError
  | notStarted
  | getMinTS (reason : GetMinTSReason)
  deriving DecidableEq, Repr

/-- The validation loop over the collected responses, threading the
`uint32` accumulator `keyspaceGroupsAsked` and the running `minTS`. -/
def scanMinTSResps (keyspaceGroupsTotal : Nat) :
    List GetMinTSResp → Option TsoTimestamp → Nat →
    Except GetMinTSReason (Option TsoTimestamp × Nat)
  | [], minTS, asked => .ok (minTS, asked)
  | r :: rest, minTS, asked =>
    if r.keyspaceGroupsTotal = 0 then .error .noKeyspaceGroup
    else if r.keyspaceGroupsTotal ≠ keyspaceGroupsTotal then .error .inconsistentTotal
    else
      scanMinTSResps keyspaceGroupsTotal rest (updateMinTS minTS r.timestamp)
        ((asked + r.keyspaceGroupsServing) % 2 ^ 32)

/-- `GrpcServer.GetMinTSFromTSOService`: the collected responses `resps` are
gathered by the concurrent fan-out (an external effect) and passed in;
`addrs` is `keyspaceGroupManager.GetTSOServiceAddrs()`. -/
def GetMinTSFromTSOService (isClosed : Bool) (addrs : List String)
    (resps : List GetMinTSResp) : Except GetMinTSError TsoTimestamp :=
  if isClosed then .error .notStarted
  else if addrs.length = 0 then .error (.getMinTS .noTsoServers)
  else match resps with
    | [] => .error (.getMinTS .noneResponded)
    | r0 :: _ =>
      match scanMinTSResps r0.keyspaceGroupsTotal resps none 0 with
      | .error reason => .error (.getMinTS reason)
      | .ok (minTS, asked) =>
        if asked ≠ r0.keyspaceGroupsTotal then .error (.getMinTS .notAllAsked)
        else match minTS with
          | none => .error (.getMinTS .notReady)
          | some ts => .ok ts

/-- The `uint32` accumulation of `keyspaceGroupsServing` over the responses,
in loop order. -/
def servingSumMod (resps : List GetMinTSResp) : Nat :=
  resps.foldl (fun a r => (a + r.keyspaceGroupsServing) % 2 ^ 32) 0

/-- The `keyspaceGroupsTotal` read from the first response
(`keyspaceGroupsTotal := resps[0].KeyspaceGroupsTotal`); 0 for an empty list. -/
def headTotal (resps : List GetMinTSResp) : Nat :=
  match resps with
  | [] => 0
  | r :: _ => r.keyspaceGroupsTotal

/-! ### Admission (`GrpcServer.validateRoleInRequest`,
`GrpcServer.GetClusterInfo`, `GrpcServer.GetMembers`,
`GrpcServer.isLocalRequest`, `GrpcServer.unaryFollowerMiddleware`). -/

/-- The errors admission can produce. -/
inductive AdmissionError
  | notStarted                  -- ErrNotStarted
  | notLeader                   -- ErrNotLeader
  | followerHandlingNotAllowed  -- ErrFollowerHandlingNotAllowed
  | mismatchClusterId           -- status FailedPrecondition "mismatch cluster id"
  deriving DecidableEq, Repr

/-- The server-side state admission reads. -/
structure ServerState where
  isClosed  : Bool
  isLeader  : Bool
  clusterId : Nat
  deriving Repr, DecidableEq

/-- The request context, as admission sees it. Modelled from the spec for
the two `grpcutil` accessors not under `src/`: the context carries a
forwarded-host metadata value (`""` when absent) and a follower-handle
opt-in flag. -/
structure RequestCtx where
  forwardedHost         : String
  followerHandleEnabled : Bool
  deriving Repr, DecidableEq

/-- The request header field admission reads. -/
structure RequestHeader where
  clusterId : Nat
  deriving Repr, DecidableEq

/-- `GrpcServer.validateRoleInRequest`: `allowFollower` is `none` for a nil
pointer; for `some`, the returned value is the pointee after the call.
Order of checks: closed, leadership/follower opt-in, cluster id. -/
def validateRoleInRequest (s : ServerState) (ctx : RequestCtx)
    (header : RequestHeader) (allowFollower : Option Bool) :
    Except AdmissionError (Option Bool) :=
  if s.isClosed then .error .notStarted
  else
    let roleStep : Except AdmissionError (Option Bool) :=
      if ¬ s.isLeader then
        match allowFollower with
        | none => .error .notLeader
        | some _ =>
          if ¬ ctx.followerHandleEnabled then .error .followerHandlingNotAllowed
          else .ok (some true)
      else .ok allowFollower
    match roleStep with
    | .error e => .error e
    | .ok af =>
      if header.clusterId ≠ s.clusterId then .error .mismatchClusterId
      else .ok af

/-- A unary handler's reply: either a response message (whose header may
carry an application error) or a transport-level gRPC error. -/
inductive UnaryReply (α : Type)
  | response (a : α)
  | grpcError (e : AdmissionError)
  deriving DecidableEq, Repr

/-- `GrpcServer.GetClusterInfo`: its request parameter is unnamed in the Go
signature, so no field of the request (in particular not its cluster id) can
be read; the only check is `IsClosed`. The reply is modelled as
(header carries no error?, tso service urls). -/
def GetClusterInfo (s : ServerState) (tsoServiceIndependent : Bool)
    (tsoAddrs : List String) (_req : RequestHeader) :
    UnaryReply (Bool × List String) :=
  .response (if s.isClosed then (false, [])
             else (true, if tsoServiceIndependent then tsoAddrs else []))

/-- `GrpcServer.GetMembers`: its request parameter is likewise unnamed, so
no field of the request can be read; the checks are the rate limiter,
`IsClosed`, and the member/allocator lookups (abstracted as two failure
flags). The reply is modelled as: does the response header carry no error? -/
def GetMembers (s : ServerState) (rateLimitDenied membersLookupFails : Bool)
    (_req : RequestHeader) : UnaryReply Bool :=
  .response (if rateLimitDenied then false
             else if s.isClosed then false
             else if membersLookupFails then false
             else true)

/-- `GrpcServer.isLocalRequest`: an empty forwarded host, or one equal to
one of this member's client URLs, is local. -/
def isLocalRequest (memberClientUrls : List String) (forwardedHost : String) : Bool :=
  if forwardedHost = "" then true
  else memberClientUrls.contains forwardedHost

/-- Modelled from the spec: `grpcutil.GetForwardedHost` (not under `src/`)
reads the forwarded-host metadata from the context, `""` when absent. -/
def getForwardedHost (ctx : RequestCtx) : String := ctx.forwardedHost

/-- Modelled from the spec: `grpcutil.ResetForwardContext` (not under
`src/`) strips the forwarded-host metadata from the outgoing context. -/
def resetForwardContext (ctx : RequestCtx) : RequestCtx :=
  { ctx with forwardedHost := "" }

/-- Outcome of `unaryFollowerMiddleware`: forward to a delegate with an
outgoing context, handle locally after successful validation, or fail. -/
inductive MiddlewareOutcome
  | forwardTo (host : String) (outgoingCtx : RequestCtx)
  | localValidated (allowFollower : Option Bool)
  | localError (e : AdmissionError)
  deriving DecidableEq, Repr

/-- `GrpcServer.unaryFollowerMiddleware`: a non-local forwarded host is
relayed via the delegate connection with the forwarding metadata reset on
the outgoing context (the dial itself is abstracted as succeeding); a local
request goes through `validateRoleInRequest`. -/
def unaryFollowerMiddleware (s : ServerState) (memberClientUrls : List String)
    (ctx : RequestCtx) (header : RequestHeader) (allowFollower : Option Bool) :
    MiddlewareOutcome :=
  let forwardedHost := getForwardedHost ctx
  if ¬ isLocalRequest memberClientUrls forwardedHost then
    .forwardTo forwardedHost (resetForwardContext ctx)
  else
    match validateRoleInRequest s ctx header allowFollower with
    | .error e => .localError e
    | .ok af => .localValidated af

/-! ### Dispatcher lifecycle (`TSODispatcher.dispatch` exit paths and
`TSODispatcher.DispatchRequest` queue creation). -/

/-- The events on which the per-queue dispatcher goroutine returns. -/
inductive DispatchExit
  | createStreamErr    -- createForwardStream returned an error
  | createStreamEmpty  -- createForwardStream returned a nil stream, no error
  | batchErr           -- processRequests failed on the upstream stream
  | idleTimeout        -- noProxyRequestsTimer fired
  | ctxDone            -- the queue's context was cancelled externally
  deriving DecidableEq, Repr

/-- The cause passed to the queue's `cancel` on each exit path. -/
inductive CancelCause
  | streamCreateError  -- the createForwardStream error itself
  | emptyStreamError   -- "create tso forwarding stream error: empty stream"
  | upstreamError      -- the processRequests error itself
  | idleTimeoutError   -- "TSOProxyStreamIdleTimeout"
  deriving DecidableEq, Repr

/-- What one exit of the dispatcher goroutine does: which cause (if any) it
cancels the queue context with, and whether the deferred
`dispatchChs.Delete(forwardedHost)` runs. -/
structure DispatchExitResult where
  cause      : Option CancelCause
  mapDeleted : Bool
  deriving DecidableEq, Repr

/-- The exit behaviour of `TSODispatcher.dispatch`: every `return` path runs
the deferred map deletion; the three abnormal exits cancel the queue context
with their specific cause first (on `ctxDone` the context is already
cancelled by its parent or by the deadline watchdog, and `dispatch` cancels
nothing itself). -/
def dispatchExit : DispatchExit → DispatchExitResult
  | .createStreamErr   => ⟨some .streamCreateError, true⟩
  | .createStreamEmpty => ⟨some .emptyStreamError, true⟩
  | .batchErr          => ⟨some .upstreamError, true⟩
  | .idleTimeout       => ⟨some .idleTimeoutError, true⟩
  | .ctxDone           => ⟨none, true⟩

/-- The `dispatchChs` mapping, URL → queue id. -/
def DispatchMap : Type := List (String × Nat)

/-- The load-or-store step of `DispatchRequest`: returns whether an existing
queue was loaded, and the mapping afterwards; a fresh queue (whose
dispatcher goroutine is then started) is stored exactly when the key was
absent. -/
def dispatchRequestQueue (m : DispatchMap) (key : String) (freshId : Nat) :
    Bool × DispatchMap :=
  match m.lookup key with
  | some _ => (true, m)
  | none => (false, (key, freshId) :: m)

/-- The deferred `dispatchChs.Delete(forwardedHost)` of `dispatch`. -/
def deleteQueue (m : DispatchMap) (key : String) : DispatchMap :=
  m.filter (fun kv => kv.1 ≠ key)

/-! ### Scheduling-client record (`schedulingClient.getClient`,
`schedulingClient.getPrimaryAddr`) and the tee in `GrpcServer.StoreHeartbeat`. -/

/-- The `schedulingClient` record: an embedded client interface value
(`none` = nil interface, as in the empty sentinel `&schedulingClient{}`)
and the primary URL. A nil *pointer* to the record is `none` at the outer
`Option`. -/
structure SchedulingClientRecord where
  client  : Option Nat
  primary : String
  deriving DecidableEq, Repr

/-- `schedulingClient.getClient`, including its nil-receiver check. -/
def getClient : Option SchedulingClientRecord → Option Nat
  | none => none
  | some r => r.client

/-- `schedulingClient.getPrimaryAddr`, including its nil-receiver check. -/
def getPrimaryAddr : Option SchedulingClientRecord → String
  | none => ""
  | some r => r.primary

/-- The empty sentinel `&schedulingClient{}` that a failing sender
compare-and-swaps in. -/
def emptySchedulingClient : SchedulingClientRecord := ⟨none, ""⟩

/-- The scheduling tee of `StoreHeartbeat` (the block guarded by
`rc.IsServiceIndependent(SchedulingServiceName)`): `forwardCli` is the
record returned by `updateSchedulingClient` with its error discarded
(`forwardCli, _ := ...`; nil on failure); `cached` is the value of the
`schedulingClient` atomic at the compare-and-swap; `sendFails` is whether
the forwarded `StoreHeartbeat` errors; `resp` is the heartbeat response
built before this block. Returns (was the tee sent, the atomic's value
afterwards, the response returned to the store). -/
def storeHeartbeatTee (serviceIndependent : Bool)
    (forwardCli : Option SchedulingClientRecord)
    (cached : Option SchedulingClientRecord)
    (sendFails : Bool) (resp : Nat) :
    Bool × Option SchedulingClientRecord × Nat :=
  if serviceIndependent then
    match getClient forwardCli with
    | none => (false, cached, resp)
    | some _ =>
      if sendFails then
        (true,
         if cached = forwardCli then some emptySchedulingClient else cached,
         resp)
      else (true, cached, resp)
  else (false, cached, resp)

/-! ## Theorems -/

/-! ### Arithmetic helpers -/

theorem wrap64_eq_self {z : Int} (hlo : -(2 ^ 63) ≤ z) (hhi : z < 2 ^ 63) :
    wrap64 z = z := by
  unfold wrap64
  have h0 : (0 : Int) ≤ z + 2 ^ 63 := by linarith
  have h1 : z + 2 ^ 63 < 2 ^ 64 := by norm_num at hhi ⊢; linarith
  rw [Int.emod_eq_of_lt h0 h1]
  ring

theorem addLogical_eq_wrap (logical count : Int) (suffixBits : Nat) :
    addLogical logical count suffixBits = wrap64 (logical + count * 2 ^ suffixBits) := by
  unfold addLogical wrap64
  have : (logical + ((count * 2 ^ suffixBits + 2 ^ 63) % 2 ^ 64 - 2 ^ 63) + 2 ^ 63)
      % 2 ^ 64 = (logical + count * 2 ^ suffixBits + 2 ^ 63) % 2 ^ 64 := by
    conv_lhs => rw [show logical + ((count * 2 ^ suffixBits + 2 ^ 63) % 2 ^ 64 - 2 ^ 63)
      + 2 ^ 63 = logical + (count * 2 ^ suffixBits + 2 ^ 63) % 2 ^ 64 by ring]
    rw [Int.add_emod, Int.emod_emod_of_dvd _ (by norm_num), ← Int.add_emod]
    ring_nf
  rw [this]

/-! ### TSO merge/split lemmas -/

theorem mergeCount_foldl (rs : List TsoProxyRequest) (acc : Nat) :
    List.foldl (fun a r => (a + r.count) % 2 ^ 32) (acc % 2 ^ 32) rs
      = (acc + totalCount rs) % 2 ^ 32 := by
  induction rs generalizing acc with
  | nil => simp [totalCount]
  | cons r rest ih =>
    simp only [List.foldl_cons, totalCount, List.map_cons, List.sum_cons] at *
    rw [Nat.mod_add_mod, ih (acc + r.count)]
    ring_nf

theorem mergeCount_eq (rs : List TsoProxyRequest) :
    mergeCount rs = totalCount rs % 2 ^ 32 := by
  have := mergeCount_foldl rs 0
  simpa [mergeCount] using this

theorem finishRequestAux_lengths (rs : List TsoProxyRequest) (c : Int)
    (p fl : Int) (s : Nat) :
    (finishRequestAux rs c p fl s).map List.length = rs.map (·.count) := by
  induction rs generalizing c with
  | nil => simp [finishRequestAux]
  | cons r rest ih => simp [finishRequestAux, postProcess, ih]

theorem finishRequestAux_flatten (rs : List TsoProxyRequest) (c : Int)
    (p fl : Int) (s : Nat) :
    (finishRequestAux rs c p fl s).flatten
      = (List.range (totalCount rs)).map
          (fun (j : Nat) => (p, addLogical fl (c + (j : Int) + 1) s)) := by
  induction rs generalizing c with
  | nil => simp [finishRequestAux, totalCount]
  | cons r rest ih =>
    simp only [finishRequestAux, postProcess, List.flatten_cons, totalCount,
      List.map_cons, List.sum_cons]
    rw [List.range_add, List.map_append, List.map_map, ih]
    congr 1
    apply List.map_congr_left
    intro j _
    simp only [Function.comp]
    congr 2
    push_cast
    ring

/-- C1 (amended): for a batch whose counts sum below `2^32` and whose
logical arithmetic stays within `int64`, `processRequests` merges the
counts into `N = Σ cᵢ`, computes the first logical as `L − N·2^s`, and
`finishRequest` assigns each request, in batch order, a contiguous
sub-range of logical values: the k-th allocated logical overall is
`L − N·2^s + (k+1)·2^s`, the per-request range sizes are exactly the
request counts, the ranges are pairwise disjoint, and every allocated
timestamp shares the response's physical part. -/
theorem tso_merge_split_correct (requests : List TsoProxyRequest) (ts : TsoTimestamp)
    (hS : totalCount requests < 2 ^ 32)
    (hhi : ts.logical < 2 ^ 63)
    (hlo : -(2 ^ 63) ≤ ts.logical - (totalCount requests : Int) * 2 ^ ts.suffixBits) :
    (processRequests requests ts).1 = totalCount requests ∧
    (processRequests requests ts).2.1
      = ts.logical - (totalCount requests : Int) * 2 ^ ts.suffixBits ∧
    (processRequests requests ts).2.2.map List.length = requests.map (·.count) ∧
    (processRequests requests ts).2.2.flatten
      = (List.range (totalCount requests)).map
          (fun (k : Nat) => (ts.physical,
            ts.logical - (totalCount requests : Int) * 2 ^ ts.suffixBits
              + ((k : Int) + 1) * 2 ^ ts.suffixBits)) ∧
    List.Pairwise List.Disjoint (processRequests requests ts).2.2 ∧
    ∀ pr ∈ (processRequests requests ts).2.2.flatten, pr.1 = ts.physical := by
  have hE : (0 : Int) < 2 ^ ts.suffixBits := by positivity
  have hSnonneg : (0 : Int) ≤ (totalCount requests : Int) := by positivity
  have hSE : (0 : Int) ≤ (totalCount requests : Int) * 2 ^ ts.suffixBits :=
    mul_nonneg hSnonneg hE.le
  have hcount : mergeCount requests = totalCount requests := by
    rw [mergeCount_eq]; exact Nat.mod_eq_of_lt hS
  have hfl : addLogical ts.logical (-(mergeCount requests : Int)) ts.suffixBits
      = ts.logical - (totalCount requests : Int) * 2 ^ ts.suffixBits := by
    rw [hcount, addLogical_eq_wrap,
      show ts.logical + -(totalCount requests : Int) * 2 ^ ts.suffixBits
        = ts.logical - (totalCount requests : Int) * 2 ^ ts.suffixBits by ring]
    exact wrap64_eq_self hlo (by linarith)
  have hmem : ∀ k : Nat, k < totalCount requests →
      addLogical (ts.logical - (totalCount requests : Int) * 2 ^ ts.suffixBits)
        (0 + (k : Int) + 1) ts.suffixBits
      = ts.logical - (totalCount requests : Int) * 2 ^ ts.suffixBits
          + ((k : Int) + 1) * 2 ^ ts.suffixBits := by
    intro k hk
    have hk1 : ((k : Int) + 1) ≤ (totalCount requests : Int) := by exact_mod_cast hk
    have h1 : (0 : Int) ≤ ((k : Int) + 1) * 2 ^ ts.suffixBits :=
      mul_nonneg (by positivity) hE.le
    have h2 : ((k : Int) + 1) * 2 ^ ts.suffixBits
        ≤ (totalCount requests : Int) * 2 ^ ts.suffixBits :=
      mul_le_mul_of_nonneg_right hk1 hE.le
    rw [addLogical_eq_wrap,
      show (0 : Int) + (k : Int) + 1 = (k : Int) + 1 by ring]
    exact wrap64_eq_self (by linarith) (by linarith)
  have hflatten : (processRequests requests ts).2.2.flatten
      = (List.range (totalCount requests)).map
          (fun (k : Nat) => (ts.physical,
            ts.logical - (totalCount requests : Int) * 2 ^ ts.suffixBits
              + ((k : Int) + 1) * 2 ^ ts.suffixBits)) := by
    simp only [processRequests, finishRequest, hfl, finishRequestAux_flatten]
    apply List.map_congr_left
    intro k hk
    rw [hmem k (List.mem_range.mp hk)]
  refine ⟨?_, ?_, ?_, hflatten, ?_, ?_⟩
  · simp only [processRequests]; exact hcount
  · simp only [processRequests]; exact hfl
  · simp only [processRequests, finishRequest]; exact finishRequestAux_lengths ..
  · have hnodup : (processRequests requests ts).2.2.flatten.Nodup := by
      rw [hflatten]
      refine List.Nodup.map ?_ (List.nodup_range _)
      intro a b hab
      have h2 : ((a : Int) + 1) * 2 ^ ts.suffixBits
          = ((b : Int) + 1) * 2 ^ ts.suffixBits := by
        have := congrArg Prod.snd hab
        simpa using this
      have h3 : ((a : Int) + 1) = ((b : Int) + 1) :=
        mul_right_cancel₀ (ne_of_gt hE) h2
      have : (a : Int) = (b : Int) := by linarith
      exact_mod_cast this
    exact (List.nodup_flatten.mp hnodup).2
  · intro pr hpr
    rw [hflatten] at hpr
    obtain ⟨k, _, hk⟩ := List.mem_map.mp hpr
    rw [← hk]

/-- C1 counterexample: the merge accumulates the counts in `uint32`, so a
batch of two requests of count `2^31` each is sent upstream with merged
count 0, not `c₁ + c₂ = 2^32` as the claim states. -/
theorem tso_merge_count_overflow_cex :
    (processRequests [⟨2 ^ 31⟩, ⟨2 ^ 31⟩] ⟨100, 80, 0⟩).1 = 0 ∧
    totalCount [⟨2 ^ 31⟩, ⟨2 ^ 31⟩] = 2 ^ 32 ∧ (0 : Nat) ≠ 2 ^ 32 := by
  refine ⟨?_, ?_, by norm_num⟩
  · norm_num [processRequests, mergeCount, totalCount]
  · norm_num [totalCount]

/-- C1 witness: the spec's own scenario — counts 3 and 5, upstream response
`(physical=100, logical=80, suffixBits=0)` — merges to 8, first logical 72,
and the sub-ranges partition `73..80` without overlap. -/
theorem tso_merge_split_correct_witness :
    totalCount [⟨3⟩, ⟨5⟩] < 2 ^ 32 ∧ (80 : Int) < 2 ^ 63 ∧
    -(2 ^ 63) ≤ (80 : Int) - (totalCount [⟨3⟩, ⟨5⟩] : Int) * 2 ^ 0 ∧
    (processRequests [⟨3⟩, ⟨5⟩] ⟨100, 80, 0⟩).1 = 8 ∧
    (processRequests [⟨3⟩, ⟨5⟩] ⟨100, 80, 0⟩).2.1 = 72 ∧
    List.Pairwise List.Disjoint (processRequests [⟨3⟩, ⟨5⟩] ⟨100, 80, 0⟩).2.2 := by
  have h := tso_merge_split_correct [⟨3⟩, ⟨5⟩] ⟨100, 80, 0⟩
    (by norm_num [totalCount]) (by norm_num) (by norm_num [totalCount])
  refine ⟨by norm_num [totalCount], by norm_num, by norm_num [totalCount], ?_, ?_,
    h.2.2.2.2.1⟩
  · rw [h.1]; norm_num [totalCount]
  · rw [h.2.1]; norm_num [totalCount]

/-- C2 (code bug exhibit): the request channel's capacity equals the batch
slice's length (`maxMergeRequests + 1`), so at the reachable fill level
`len(requestCh) = maxMergeRequests + 1` — the channel refilled to capacity
by concurrent producers after the first request was dequeued — the drain
loop writes slice index `maxMergeRequests + 1`, which is out of bounds for
the slice of length `maxMergeRequests + 1` (an index-out-of-range panic),
and drains `maxMergeRequests + 1 > maxMergeRequests` additional requests. -/
theorem dispatch_drain_out_of_bounds :
    requestChCapacity = requestsSliceLen ∧
    (maxMergeRequests + 1) ∈ drainWriteIndices requestChCapacity ∧
    sliceWriteInBounds requestsSliceLen (maxMergeRequests + 1) = false ∧
    maxMergeRequests + 1 > maxMergeRequests := by
  refine ⟨rfl, ?_, ?_, by omega⟩
  · simp only [drainWriteIndices, pendingTSOReqCount, requestChCapacity,
      Nat.add_sub_cancel, List.mem_map, List.mem_range]
    exact ⟨maxMergeRequests, by omega, rfl⟩
  · simp [sliceWriteInBounds, requestsSliceLen]

/-! ### Stream guard theorems -/

/-- C3: on every guard operation of the three stream guards, the `closed`
flag is write-once monotonic (never cleared), any underlying error or
timeout sets it, and once it is set every send returns EOF/Canceled and
every recv returns EOF immediately, without invoking the underlying
stream operation. -/
theorem guard_closed_monotonic :
    ∀ (op : GuardOp) (c : Bool) (ev : UnderlyingEvent),
      (c = true → (guardStep op c ev).closed = true) ∧
      ((guardStep op c ev).ret = .retErr ∨ (guardStep op c ev).ret = .retTimeoutErr →
          (guardStep op c ev).closed = true) ∧
      (c = true →
          (guardStep op c ev).invoked = false ∧
          (isSendOp op = true →
            (guardStep op c ev).ret = .retEOF ∨ (guardStep op c ev).ret = .retCanceled) ∧
          (isSendOp op = false → (guardStep op c ev).ret = .retEOF)) := by
  intro op c ev
  cases op <;> cases c <;> cases ev <;>
    simp [guardStep, tsoServerSend, tsoServerRecv, heartbeatServerSend,
      heartbeatServerRecv, bucketHeartbeatServerSend, bucketHeartbeatServerRecv,
      isSendOp]

/-- C3 witness: a closed bucket guard's send short-circuits to `Canceled`
without touching the stream, and stays closed. -/
theorem guard_closed_monotonic_witness :
    (guardStep .bucketSend true .ok).closed = true ∧
    (guardStep .bucketSend true .ok).invoked = false ∧
    ((guardStep .bucketSend true .ok).ret = .retEOF ∨
      (guardStep .bucketSend true .ok).ret = .retCanceled) := by
  have h := guard_closed_monotonic .bucketSend true .ok
  exact ⟨h.1 rfl, (h.2.2 rfl).1, (h.2.2 rfl).2.1 rfl⟩

/-- C9 (amended): the three send operations and `tsoServer.recv` race the
underlying call against a timer — `tsoServer.send` with
`DefaultTSOProxyTimeout` (3 s, not 5 s), the two heartbeat-class sends with
`heartbeatSendTimeout` (5 s), `tsoServer.recv` with its caller-supplied
timeout — and on timer expiry return a timeout error and mark the guard
closed. `heartbeatServer.Recv` and `bucketHeartbeatServer.recv` arm no
timer: they mark the guard closed on an underlying error, but when the
underlying call does not complete they do not return at all. -/
theorem guard_timeout_partial :
    ∀ (recvTimeout : Nat) (op : GuardOp),
      ((guardTimerSeconds recvTimeout op).isSome = true →
          (guardStep op false .hang).ret = .retTimeoutErr ∧
          (guardStep op false .hang).closed = true) ∧
      (guardTimerSeconds recvTimeout op = none →
          (guardStep op false .hang).ret = .noReturn ∧
          (guardStep op false .fail).ret = .retErr ∧
          (guardStep op false .fail).closed = true) ∧
      guardTimerSeconds recvTimeout .tsoSend = some DefaultTSOProxyTimeout ∧
      guardTimerSeconds recvTimeout .hbSend = some heartbeatSendTimeout ∧
      guardTimerSeconds recvTimeout .bucketSend = some heartbeatSendTimeout ∧
      guardTimerSeconds recvTimeout .tsoRecv = some recvTimeout := by
  intro recvTimeout op
  cases op <;>
    simp [guardStep, guardTimerSeconds, tsoServerSend, tsoServerRecv,
      heartbeatServerSend, heartbeatServerRecv, bucketHeartbeatServerSend,
      bucketHeartbeatServerRecv]

/-- C9 counterexample: `heartbeatServer.Recv` (and likewise the bucket
guard's recv) arms no timer, so a hanging underlying `Recv` makes the guard
operation hang too, instead of returning a timeout error; and
`tsoServer.send` races against 3 s, not the claimed 5 s. -/
theorem guard_timeout_cex :
    guardTimerSeconds 3 .hbRecv = none ∧
    guardTimerSeconds 3 .bucketRecv = none ∧
    (guardStep .hbRecv false .hang).ret = .noReturn ∧
    GuardReturn.noReturn ≠ .retTimeoutErr ∧
    guardTimerSeconds 3 .tsoSend = some DefaultTSOProxyTimeout ∧
    DefaultTSOProxyTimeout = 3 ∧ (3 : Nat) ≠ 5 := by
  refine ⟨rfl, rfl, rfl, by simp, rfl, rfl, by norm_num⟩

/-- C9 witness: with a configured recv timeout of 3 s, a hanging upstream
send on the TSO guard returns the timeout error and closes the guard, and a
hanging underlying recv on the heartbeat guard never returns. -/
theorem guard_timeout_partial_witness :
    (guardStep .tsoSend false .hang).ret = .retTimeoutErr ∧
    (guardStep .tsoSend false .hang).closed = true ∧
    (guardStep .hbRecv false .hang).ret = .noReturn := by
  have h1 := guard_timeout_partial 3 .tsoSend
  have h2 := guard_timeout_partial 3 .hbRecv
  exact ⟨(h1.1 rfl).1, (h1.1 rfl).2, (h2.2.1 rfl).1⟩

/-! ### Admission theorems -/

/-- C5 (amended): for a locally handled request with a mismatched cluster
id, admission returns the `FailedPrecondition` mismatch error provided the
earlier checks pass (server started; leader, or follower handling permitted
and opted in) — when the server is closed or the role check fails, that
earlier error takes precedence. `GetClusterInfo` and `GetMembers` cannot
read any request field (their request parameters are unnamed), so their
result is independent of the request's cluster id and is never a
transport-level admission error. -/
theorem cluster_id_admission (s : ServerState) (ctx : RequestCtx)
    (header : RequestHeader) (af : Option Bool)
    (hopen : s.isClosed = false)
    (hrole : s.isLeader = true ∨ (af ≠ none ∧ ctx.followerHandleEnabled = true))
    (hmismatch : header.clusterId ≠ s.clusterId) :
    validateRoleInRequest s ctx header af = .error .mismatchClusterId ∧
    (∀ tsoInd addrs h1 h2,
        GetClusterInfo s tsoInd addrs h1 = GetClusterInfo s tsoInd addrs h2) ∧
    (∀ rl mf h1 h2, GetMembers s rl mf h1 = GetMembers s rl mf h2) ∧
    (∀ tsoInd addrs h1 e, GetClusterInfo s tsoInd addrs h1 ≠ .grpcError e) ∧
    (∀ rl mf h1 e, GetMembers s rl mf h1 ≠ .grpcError e) := by
  refine ⟨?_, fun _ _ _ _ => rfl, fun _ _ _ _ => rfl,
    fun _ _ _ _ => by simp [GetClusterInfo], fun _ _ _ _ => by simp [GetMembers]⟩
  rcases hrole with hleader | ⟨hsome, hfh⟩
  · simp [validateRoleInRequest, hopen, hleader, hmismatch]
  · obtain ⟨b, hb⟩ := Option.ne_none_iff_exists'.mp hsome
    cases hleader : s.isLeader <;>
      simp [validateRoleInRequest, hopen, hb, hfh, hmismatch, hleader]

/-- C5 counterexample: a mismatched request on a closed server fails with
`NotStarted`, and on a started non-leader (without follower opt-in) with
`NotLeader` — in both cases not with the `FailedPrecondition` mismatch
error the claim requires for every mismatched locally handled request. -/
theorem cluster_id_admission_cex :
    validateRoleInRequest ⟨true, true, 1⟩ ⟨"", false⟩ ⟨2⟩ none
      = .error .notStarted ∧
    AdmissionError.notStarted ≠ .mismatchClusterId ∧
    validateRoleInRequest ⟨false, false, 1⟩ ⟨"", false⟩ ⟨2⟩ none
      = .error .notLeader ∧
    AdmissionError.notLeader ≠ .mismatchClusterId := by
  refine ⟨rfl, by simp, ?_, by simp⟩
  simp [validateRoleInRequest]

/-- C5 witness: a started leader with a mismatched cluster id is rejected
with the mismatch error, and `GetClusterInfo` ignores the request header. -/
theorem cluster_id_admission_witness :
    validateRoleInRequest ⟨false, true, 1⟩ ⟨"", false⟩ ⟨2⟩ none
      = .error .mismatchClusterId ∧
    GetClusterInfo ⟨false, true, 1⟩ true ["u"] ⟨2⟩
      = GetClusterInfo ⟨false, true, 1⟩ true ["u"] ⟨1⟩ := by
  have h := cluster_id_admission ⟨false, true, 1⟩ ⟨"", false⟩ ⟨2⟩ none rfl
    (Or.inl rfl) (by norm_num)
  exact ⟨h.1, h.2.1 true ["u"] ⟨2⟩ ⟨1⟩⟩

/-- C6 (amended): on a started non-leader, a locally handled request whose
RPC does not permit follower handling (`allowFollower` nil) fails
`NotLeader`; one whose RPC permits it but whose context does not opt in
fails `FollowerHandlingNotAllowed`; one that permits it and opts in is
admitted with the follower flag set to true — provided the cluster-id check
also passes, which still runs after the role check. -/
theorem follower_role_admission (s : ServerState) (ctx : RequestCtx)
    (header : RequestHeader) (af : Option Bool)
    (hopen : s.isClosed = false) (hfol : s.isLeader = false) :
    (af = none → validateRoleInRequest s ctx header af = .error .notLeader) ∧
    (af ≠ none → ctx.followerHandleEnabled = false →
        validateRoleInRequest s ctx header af = .error .followerHandlingNotAllowed) ∧
    (af ≠ none → ctx.followerHandleEnabled = true → header.clusterId = s.clusterId →
        validateRoleInRequest s ctx header af = .ok (some true)) := by
  refine ⟨fun hn => ?_, fun hs hfh => ?_, fun hs hfh hcid => ?_⟩
  · simp [validateRoleInRequest, hopen, hfol, hn]
  · obtain ⟨b, hb⟩ := Option.ne_none_iff_exists'.mp hs
    simp [validateRoleInRequest, hopen, hfol, hb, hfh]
  · obtain ⟨b, hb⟩ := Option.ne_none_iff_exists'.mp hs
    simp [validateRoleInRequest, hopen, hfol, hb, hfh, hcid]

/-- C6 counterexample: on a closed non-leader the error is `NotStarted`,
not `NotLeader`; and a follower-permitting, opted-in request with a
mismatched cluster id is still rejected (with the mismatch error), not
admitted as the claim's final clause states. -/
theorem follower_role_admission_cex :
    validateRoleInRequest ⟨true, false, 1⟩ ⟨"", false⟩ ⟨1⟩ none
      = .error .notStarted ∧
    AdmissionError.notStarted ≠ .notLeader ∧
    validateRoleInRequest ⟨false, false, 1⟩ ⟨"", true⟩ ⟨2⟩ (some false)
      = .error .mismatchClusterId ∧
    (Except.error .mismatchClusterId : Except AdmissionError (Option Bool))
      ≠ .ok (some true) := by
  refine ⟨rfl, by simp, ?_, by simp⟩
  simp [validateRoleInRequest]

/-- C6 witness: the three role outcomes at concrete states — nil pointer
fails `NotLeader`; no opt-in fails `FollowerHandlingNotAllowed`; opt-in
with a matching cluster id is admitted with the follower flag set. -/
theorem follower_role_admission_witness :
    validateRoleInRequest ⟨false, false, 7⟩ ⟨"", false⟩ ⟨7⟩ none
      = .error .notLeader ∧
    validateRoleInRequest ⟨false, false, 7⟩ ⟨"", false⟩ ⟨7⟩ (some false)
      = .error .followerHandlingNotAllowed ∧
    validateRoleInRequest ⟨false, false, 7⟩ ⟨"", true⟩ ⟨7⟩ (some false)
      = .ok (some true) := by
  have h1 := follower_role_admission ⟨false, false, 7⟩ ⟨"", false⟩ ⟨7⟩ none rfl rfl
  have h2 := follower_role_admission ⟨false, false, 7⟩ ⟨"", false⟩ ⟨7⟩ (some false)
    rfl rfl
  have h3 := follower_role_admission ⟨false, false, 7⟩ ⟨"", true⟩ ⟨7⟩ (some false)
    rfl rfl
  exact ⟨h1.1 rfl, h2.2.1 (by simp) rfl, h3.2.2 (by simp) rfl rfl⟩

theorem unaryFollowerMiddleware_local (s : ServerState) (urls : List String)
    (ctx : RequestCtx) (header : RequestHeader) (af : Option Bool)
    (hl : isLocalRequest urls (getForwardedHost ctx) = true) :
    unaryFollowerMiddleware s urls ctx header af
      = match validateRoleInRequest s ctx header af with
        | .error e => .localError e
        | .ok a => .localValidated a := by
  simp [unaryFollowerMiddleware, hl]

theorem unaryFollowerMiddleware_forward (s : ServerState) (urls : List String)
    (ctx : RequestCtx) (header : RequestHeader) (af : Option Bool)
    (hl : isLocalRequest urls (getForwardedHost ctx) = false) :
    unaryFollowerMiddleware s urls ctx header af
      = .forwardTo (getForwardedHost ctx) (resetForwardContext ctx) := by
  simp [unaryFollowerMiddleware, hl]

/-- C7: forwarding is loop-free — an empty forwarded host, or one equal to
one of this member's client URLs, is classified local and the middleware
never forwards such a request; and whenever the middleware does forward, the
outgoing context's forwarded-host metadata has been reset before the
delegate is invoked. -/
theorem forwarding_loop_free (s : ServerState) (urls : List String)
    (ctx : RequestCtx) (header : RequestHeader) (af : Option Bool) :
    (getForwardedHost ctx = "" → isLocalRequest urls (getForwardedHost ctx) = true) ∧
    (getForwardedHost ctx ∈ urls → isLocalRequest urls (getForwardedHost ctx) = true) ∧
    (isLocalRequest urls (getForwardedHost ctx) = true →
        ∀ h oc, unaryFollowerMiddleware s urls ctx header af ≠ .forwardTo h oc) ∧
    (∀ h oc, unaryFollowerMiddleware s urls ctx header af = .forwardTo h oc →
        getForwardedHost oc = "") := by
  refine ⟨fun he => ?_, fun hm => ?_, fun hl h oc => ?_, fun h oc hf => ?_⟩
  · simp [isLocalRequest, he]
  · unfold isLocalRequest
    by_cases he : getForwardedHost ctx = ""
    · simp [he]
    · rw [if_neg he]
      exact List.elem_eq_true_of_mem hm
  · rw [unaryFollowerMiddleware_local s urls ctx header af hl]
    cases validateRoleInRequest s ctx header af <;> simp
  · by_cases hl : isLocalRequest urls (getForwardedHost ctx) = true
    · rw [unaryFollowerMiddleware_local s urls ctx header af hl] at hf
      rcases hval : validateRoleInRequest s ctx header af with e | a <;>
        rw [hval] at hf <;> simp at hf
    · rw [unaryFollowerMiddleware_forward s urls ctx header af
        (by simpa using hl)] at hf
      injection hf with h1 h2
      rw [← h2]
      rfl

/-- C7 witness: a request forwarded-host equal to a member URL is served
locally, and a forwarded request's outgoing context carries no
forwarded-host. -/
theorem forwarding_loop_free_witness :
    isLocalRequest ["u1", "u2"] (getForwardedHost ⟨"u2", false⟩) = true ∧
    (unaryFollowerMiddleware ⟨false, true, 1⟩ ["u1"] ⟨"u3", false⟩ ⟨1⟩ none
        ≠ .forwardTo "u2" ⟨"u3", false⟩) ∧
    getForwardedHost (resetForwardContext ⟨"u3", false⟩) = "" := by
  have h := forwarding_loop_free ⟨false, true, 1⟩ ["u1", "u2"] ⟨"u2", false⟩ ⟨1⟩ none
  have h2 := forwarding_loop_free ⟨false, true, 1⟩ ["u1"] ⟨"u3", false⟩ ⟨1⟩ none
  refine ⟨h.2.1 (by simp [getForwardedHost]), fun hf => ?_, rfl⟩
  have := h2.2.2.2 "u2" ⟨"u3", false⟩ hf
  simp [getForwardedHost] at this

/-! ### Dispatcher lifecycle theorems -/

theorem lookup_deleteQueue (m : DispatchMap) (key : String) :
    (deleteQueue m key).lookup key = none := by
  induction m with
  | nil => rfl
  | cons kv rest ih =>
    obtain ⟨k, v⟩ := kv
    by_cases h : k = key
    · have hstep : deleteQueue ((k, v) :: rest) key = deleteQueue rest key := by
        simp [deleteQueue, List.filter_cons, h]
      rw [hstep]; exact ih
    · have hstep : deleteQueue ((k, v) :: rest) key
          = (k, v) :: deleteQueue rest key := by
        simp [deleteQueue, List.filter_cons, h]
      have hne : (key == k) = false := by
        simp only [beq_eq_false_iff_ne, ne_eq]
        exact fun hh => h hh.symm
      rw [hstep]
      simp only [List.lookup, hne]
      exact ih

/-- C8: each abnormal exit of the per-queue dispatcher goroutine — stream
creation failure, upstream batch failure, idle timeout — cancels the queue
context with that specific cause; every exit path runs the deferred removal
of the queue from the dispatch mapping; and after the removal the next
`DispatchRequest` for that URL finds no entry and stores a fresh queue. -/
theorem dispatcher_exit_cleanup :
    dispatchExit .createStreamErr = ⟨some .streamCreateError, true⟩ ∧
    dispatchExit .createStreamEmpty = ⟨some .emptyStreamError, true⟩ ∧
    dispatchExit .batchErr = ⟨some .upstreamError, true⟩ ∧
    dispatchExit .idleTimeout = ⟨some .idleTimeoutError, true⟩ ∧
    (∀ e, (dispatchExit e).mapDeleted = true) ∧
    (∀ (m : DispatchMap) (key : String) (freshId : Nat),
        (dispatchRequestQueue (deleteQueue m key) key freshId).1 = false ∧
        (dispatchRequestQueue (deleteQueue m key) key freshId).2.lookup key
          = some freshId) := by
  refine ⟨rfl, rfl, rfl, rfl, fun e => by cases e <;> rfl,
    fun m key freshId => ?_⟩
  have h := lookup_deleteQueue m key
  constructor
  · simp [dispatchRequestQueue, h]
  · simp [dispatchRequestQueue, h, List.lookup]

/-! ### Scheduling-client theorems -/

/-- C10: the nil-receiver accessors return `nil`/`""` instead of failing;
when `updateSchedulingClient` failed (nil record), `StoreHeartbeat` skips
the tee and returns its response unchanged; when the cached client exists
and the forwarded send fails, the record is compare-and-swapped to the
empty sentinel and the response is still returned unchanged; the tee block
never alters the heartbeat response at all. -/
theorem schedulingClient_nil_tolerance :
    getClient none = none ∧
    getPrimaryAddr none = "" ∧
    (∀ cached sendFails resp,
        storeHeartbeatTee true none cached sendFails resp = (false, cached, resp)) ∧
    (∀ cid p cached resp,
        storeHeartbeatTee true (some ⟨some cid, p⟩) cached true resp
          = (true,
             if cached = some ⟨some cid, p⟩ then some emptySchedulingClient
             else cached,
             resp)) ∧
    (∀ forwardCli cached sendFails resp,
        (storeHeartbeatTee true forwardCli cached sendFails resp).2.2 = resp) := by
  refine ⟨rfl, rfl, fun cached sendFails resp => rfl,
    fun cid p cached resp => rfl, fun forwardCli cached sendFails resp => ?_⟩
  rcases forwardCli with _ | ⟨cl, p⟩
  · simp [storeHeartbeatTee, getClient]
  · rcases cl with _ | c
    · simp [storeHeartbeatTee, getClient]
    · unfold storeHeartbeatTee getClient
      by_cases hs : sendFails <;> simp [hs]

/-! ### Min-TS aggregation theorems -/


theorem compareTimestamp_lt_iff (a b : TsoTimestamp) :
    compareTimestamp a b < 0 ↔ tsLexLt a b := by
  unfold compareTimestamp tsLexLt
  split_ifs with h1 h2 <;> constructor <;> intro h <;> omega

theorem compareTimestamp_pos_iff (a b : TsoTimestamp) :
    0 < compareTimestamp a b ↔ tsLexLt b a := by
  unfold compareTimestamp tsLexLt
  split_ifs with h1 h2 <;> constructor <;> intro h <;> omega

theorem compareTimestamp_le_iff (a b : TsoTimestamp) :
    compareTimestamp a b ≤ 0 ↔ ¬ tsLexLt b a := by
  unfold compareTimestamp tsLexLt
  split_ifs with h1 h2 <;> constructor <;> intro h <;> omega

theorem tsLexLt_not_trans {a b c : TsoTimestamp}
    (h1 : ¬ tsLexLt b a) (h2 : ¬ tsLexLt c b) : ¬ tsLexLt c a := by
  unfold tsLexLt at *
  omega



theorem updateMinTS_none_iff (m : Option TsoTimestamp) (t : TsoTimestamp) :
    updateMinTS m t = none ↔ (m = none ∧ ¬ tsPositive t) := by
  unfold updateMinTS tsPositive
  rcases m with _ | mm <;> split <;> simp_all

theorem minFold_none_iff (rs : List GetMinTSResp) :
    ∀ m : Option TsoTimestamp,
      (minFold rs m = none ↔ (m = none ∧ ∀ r ∈ rs, ¬ tsPositive r.timestamp)) := by
  induction rs with
  | nil => intro m; simp [minFold]
  | cons r rest ih =>
    intro m
    have hstep : minFold (r :: rest) m = minFold rest (updateMinTS m r.timestamp) := rfl
    rw [hstep, ih]
    rw [updateMinTS_none_iff]
    constructor
    · rintro ⟨⟨hm, hr⟩, hrest⟩
      exact ⟨hm, by intro x hx; rcases List.mem_cons.mp hx with h | h
                    · rw [h]; exact hr
                    · exact hrest x h⟩
    · rintro ⟨hm, hall⟩
      exact ⟨⟨hm, hall r (by simp)⟩, fun x hx => hall x (by simp [hx])⟩

theorem minFold_some_mem (rs : List GetMinTSResp) :
    ∀ (m : Option TsoTimestamp) (ts : TsoTimestamp),
      minFold rs m = some ts → m = some ts ∨ ts ∈ rs.map (·.timestamp) := by
  induction rs with
  | nil => intro m ts h; exact Or.inl h
  | cons r rest ih =>
    intro m ts h
    have hstep : minFold (r :: rest) m = minFold rest (updateMinTS m r.timestamp) := rfl
    rw [hstep] at h
    rcases ih _ ts h with hu | hmem
    · unfold updateMinTS at hu
      split at hu
      · right
        simp only [Option.some.injEq] at hu
        simp [← hu]
      · exact Or.inl hu
    · right
      simp only [List.map_cons, List.mem_cons]
      exact Or.inr hmem

theorem minFold_some_pos (rs : List GetMinTSResp) :
    ∀ (m : Option TsoTimestamp) (ts : TsoTimestamp),
      (∀ t, m = some t → tsPositive t) →
      minFold rs m = some ts → tsPositive ts := by
  induction rs with
  | nil => intro m ts hm h; exact hm ts h
  | cons r rest ih =>
    intro m ts hm h
    have hstep : minFold (r :: rest) m = minFold rest (updateMinTS m r.timestamp) := rfl
    rw [hstep] at h
    refine ih _ ts ?_ h
    intro t ht
    unfold updateMinTS at ht
    split at ht
    · rename_i hcond
      simp only [Option.some.injEq] at ht
      rw [← ht]
      exact of_decide_eq_true (Bool.and_elim_left hcond)
    · exact hm t ht



theorem minFold_le_init (rs : List GetMinTSResp) :
    ∀ (m : Option TsoTimestamp) (ts t0 : TsoTimestamp),
      m = some t0 → minFold rs m = some ts → ¬ tsLexLt t0 ts := by
  induction rs with
  | nil =>
    intro m ts t0 hm h
    rw [hm] at h
    simp only [minFold, List.foldl_nil, Option.some.injEq] at h
    rw [← h]
    unfold tsLexLt; omega
  | cons r rest ih =>
    intro m ts t0 hm h
    subst hm
    have hstep : minFold (r :: rest) (some t0)
        = minFold rest (updateMinTS (some t0) r.timestamp) := rfl
    rw [hstep] at h
    by_cases hlt : compareTimestamp r.timestamp t0 < 0
    · by_cases hpos : 0 < compareTimestamp r.timestamp emptyTS
      · have hm' : updateMinTS (some t0) r.timestamp = some r.timestamp := by
          unfold updateMinTS; simp [hpos, hlt]
        rw [hm'] at h
        have h1 := ih _ ts r.timestamp rfl h
        have h2 : tsLexLt r.timestamp t0 := (compareTimestamp_lt_iff ..).mp hlt
        unfold tsLexLt at *; omega
      · have hm' : updateMinTS (some t0) r.timestamp = some t0 := by
          unfold updateMinTS; simp [hpos]
        rw [hm'] at h
        exact ih _ ts t0 rfl h
    · have hm' : updateMinTS (some t0) r.timestamp = some t0 := by
        unfold updateMinTS; simp [hlt]
      rw [hm'] at h
      exact ih _ ts t0 rfl h

theorem minFold_minimal (rs : List GetMinTSResp) :
    ∀ (m : Option TsoTimestamp) (ts : TsoTimestamp),
      minFold rs m = some ts →
      ∀ x ∈ rs, tsPositive x.timestamp → ¬ tsLexLt x.timestamp ts := by
  induction rs with
  | nil => intro m ts h x hx; cases hx
  | cons r rest ih =>
    intro m ts h x hx hpos
    have hstep : minFold (r :: rest) m = minFold rest (updateMinTS m r.timestamp) := rfl
    rw [hstep] at h
    rcases List.mem_cons.mp hx with hxr | hxrest
    · subst hxr
      unfold tsPositive at hpos
      rcases m with _ | t0
      · have hm' : updateMinTS none x.timestamp = some x.timestamp := by
          unfold updateMinTS; simp [hpos]
        rw [hm'] at h
        exact minFold_le_init rest _ ts x.timestamp rfl h
      · by_cases hlt : compareTimestamp x.timestamp t0 < 0
        · have hm' : updateMinTS (some t0) x.timestamp = some x.timestamp := by
            unfold updateMinTS; simp [hpos, hlt]
          rw [hm'] at h
          exact minFold_le_init rest _ ts x.timestamp rfl h
        · have hm' : updateMinTS (some t0) x.timestamp = some t0 := by
            unfold updateMinTS; simp [hlt]
          rw [hm'] at h
          have h1 := minFold_le_init rest _ ts t0 rfl h
          have h2 : ¬ tsLexLt x.timestamp t0 := by
            rw [← compareTimestamp_lt_iff]; omega
          exact tsLexLt_not_trans h1 h2
    · exact ih _ ts h x hxrest hpos

theorem scanMinTSResps_ok (total : Nat) (rs : List GetMinTSResp) :
    ∀ (m : Option TsoTimestamp) (a : Nat),
      (∀ r ∈ rs, r.keyspaceGroupsTotal = total ∧ r.keyspaceGroupsTotal ≠ 0) →
      scanMinTSResps total rs m a
        = .ok (minFold rs m,
               rs.foldl (fun aa r => (aa + r.keyspaceGroupsServing) % 2 ^ 32) a) := by
  induction rs with
  | nil => intro m a _; rfl
  | cons r rest ih =>
    intro m a h
    have hr := h r (by simp)
    have hrest : ∀ x ∈ rest,
        x.keyspaceGroupsTotal = total ∧ x.keyspaceGroupsTotal ≠ 0 :=
      fun x hx => h x (by simp [hx])
    unfold scanMinTSResps
    rw [if_neg hr.2, if_neg (by simp [hr.1])]
    exact ih _ _ hrest

theorem scanMinTSResps_ok_inv (total : Nat) (rs : List GetMinTSResp) :
    ∀ (m : Option TsoTimestamp) (a : Nat) (out : Option TsoTimestamp × Nat),
      scanMinTSResps total rs m a = .ok out →
      ∀ r ∈ rs, r.keyspaceGroupsTotal = total ∧ r.keyspaceGroupsTotal ≠ 0 := by
  induction rs with
  | nil => intro m a out _ r hr; cases hr
  | cons r rest ih =>
    intro m a out h x hx
    unfold scanMinTSResps at h
    by_cases h0 : r.keyspaceGroupsTotal = 0
    · rw [if_pos h0] at h; exact Except.noConfusion h
    · rw [if_neg h0] at h
      by_cases hT : r.keyspaceGroupsTotal ≠ total
      · rw [if_pos hT] at h; exact Except.noConfusion h
      · rw [if_neg hT] at h
        push_neg at hT
        rcases List.mem_cons.mp hx with hxr | hxrest
        · subst hxr; exact ⟨hT, h0⟩
        · exact ih _ _ out h x hxrest



theorem getMinTS_open_cons (addrs : List String) (r0 : GetMinTSResp)
    (rest : List GetMinTSResp) (ha : addrs.length ≠ 0) :
    GetMinTSFromTSOService false addrs (r0 :: rest)
      = (match scanMinTSResps r0.keyspaceGroupsTotal (r0 :: rest) none 0 with
         | .error reason => .error (.getMinTS reason)
         | .ok (minTS, asked) =>
           if asked ≠ r0.keyspaceGroupsTotal then
             .error (.getMinTS .notAllAsked)
           else match minTS with
             | none => .error (.getMinTS .notReady)
             | some ts => .ok ts) := by
  unfold GetMinTSFromTSOService
  rw [if_neg (by simp), if_neg ha]

/-- C4 (amended): `GetMinTSFromTSOService` returns a timestamp only when at
least one allocator responded, every response reports the same nonzero
keyspace-groups-total, the `uint32` sum of keyspace-groups-serving equals
that total, and some response carries a positive timestamp; the returned
timestamp is then a minimum positive timestamp among the responses
(w.r.t. the `(physical, logical)` order). Conversely, on a started server
with a nonempty address list those conditions force success, and every
error produced on a started server is a `GetMinTS` error. -/
theorem getMinTS_validation (isClosed : Bool) (addrs : List String)
    (resps : List GetMinTSResp) :
    (∀ ts, GetMinTSFromTSOService isClosed addrs resps = .ok ts →
        isClosed = false ∧ addrs ≠ [] ∧ resps ≠ [] ∧
        (∀ r ∈ resps, r.keyspaceGroupsTotal = headTotal resps ∧
            r.keyspaceGroupsTotal ≠ 0) ∧
        servingSumMod resps = headTotal resps ∧
        tsPositive ts ∧ ts ∈ resps.map (·.timestamp) ∧
        (∀ r ∈ resps, tsPositive r.timestamp →
            compareTimestamp ts r.timestamp ≤ 0)) ∧
    (isClosed = false → addrs ≠ [] → resps ≠ [] →
        (∀ r ∈ resps, r.keyspaceGroupsTotal = headTotal resps ∧
            r.keyspaceGroupsTotal ≠ 0) →
        servingSumMod resps = headTotal resps →
        (∃ r ∈ resps, tsPositive r.timestamp) →
        ∃ ts, GetMinTSFromTSOService isClosed addrs resps = .ok ts) ∧
    (isClosed = false →
        ∀ e, GetMinTSFromTSOService isClosed addrs resps = .error e →
        ∃ reason, e = .getMinTS reason) := by
  refine ⟨?_, ?_, ?_⟩
  · -- soundness of a successful return
    intro ts h
    cases isClosed
    case true => exact Except.noConfusion h
    by_cases ha : addrs.length = 0
    · exfalso
      unfold GetMinTSFromTSOService at h
      rw [if_neg (by simp), if_pos ha] at h
      exact Except.noConfusion h
    rcases resps with _ | ⟨r0, rest⟩
    · exfalso
      unfold GetMinTSFromTSOService at h
      rw [if_neg (by simp), if_neg ha] at h
      exact Except.noConfusion h
    rw [getMinTS_open_cons addrs r0 rest ha] at h
    split at h
    · exact Except.noConfusion h
    rename_i mts asked hscan
    split at h
    · exact Except.noConfusion h
    rename_i hask
    push_neg at hask
    rcases mts with _ | tsm
    · exact Except.noConfusion h
    have hts : tsm = ts := Except.ok.inj h
    subst hts
    have hconds := scanMinTSResps_ok_inv r0.keyspaceGroupsTotal (r0 :: rest)
      none 0 (some tsm, asked) hscan
    have hok := scanMinTSResps_ok r0.keyspaceGroupsTotal (r0 :: rest) none 0 hconds
    rw [hscan] at hok
    have hpair := Except.ok.inj hok
    have hmf : minFold (r0 :: rest) none = some tsm := by
      have := congrArg Prod.fst hpair
      simpa using this.symm
    have hsum : servingSumMod (r0 :: rest) = asked := by
      have := congrArg Prod.snd hpair
      simpa [servingSumMod] using this.symm
    have hpos : tsPositive tsm :=
      minFold_some_pos (r0 :: rest) none tsm (fun t ht => Option.noConfusion ht) hmf
    have hmem : tsm ∈ (r0 :: rest).map (·.timestamp) := by
      rcases minFold_some_mem (r0 :: rest) none tsm hmf with hcontra | hm
      · exact Option.noConfusion hcontra
      · exact hm
    refine ⟨rfl, fun hnil => ha (by simp [hnil]), by simp, hconds, ?_, hpos, hmem, ?_⟩
    · rw [hsum, hask]; rfl
    · intro r hr hrpos
      rw [compareTimestamp_le_iff]
      exact minFold_minimal (r0 :: rest) none tsm hmf r hr hrpos
  · -- completeness: all checks pass and a positive timestamp exists
    intro hcl haddrs hresps hconds hsum hex
    subst hcl
    rcases resps with _ | ⟨r0, rest⟩
    · exact absurd rfl hresps
    have ha : addrs.length ≠ 0 := by simpa using haddrs
    rw [getMinTS_open_cons addrs r0 rest ha,
      scanMinTSResps_ok r0.keyspaceGroupsTotal (r0 :: rest) none 0 hconds]
    rcases hmf : minFold (r0 :: rest) none with _ | tsm
    · exfalso
      obtain ⟨r, hr, hrpos⟩ := hex
      exact ((minFold_none_iff (r0 :: rest) none).mp hmf).2 r hr hrpos
    · refine ⟨tsm, ?_⟩
      have hasked : ¬ ((r0 :: rest).foldl
          (fun aa r => (aa + r.keyspaceGroupsServing) % 2 ^ 32) 0
            ≠ r0.keyspaceGroupsTotal) :=
        fun hne => hne hsum
      simp only [if_neg hasked]
  · -- every error on an open server is a GetMinTS error
    intro hcl e he
    subst hcl
    by_cases ha : addrs.length = 0
    · unfold GetMinTSFromTSOService at he
      rw [if_neg (by simp), if_pos ha] at he
      exact ⟨.noTsoServers, (Except.error.inj he).symm⟩
    rcases resps with _ | ⟨r0, rest⟩
    · unfold GetMinTSFromTSOService at he
      rw [if_neg (by simp), if_neg ha] at he
      exact ⟨.noneResponded, (Except.error.inj he).symm⟩
    rw [getMinTS_open_cons addrs r0 rest ha] at he
    split at he
    · exact ⟨_, (Except.error.inj he).symm⟩
    rename_i mts asked hscan
    split at he
    · exact ⟨.notAllAsked, (Except.error.inj he).symm⟩
    rcases mts with _ | tsm
    · exact ⟨.notReady, (Except.error.inj he).symm⟩
    · exact Except.noConfusion he



/-- C4 counterexample: `keyspaceGroupsAsked` accumulates in `uint32`, so
three responders with servings `2^31`, `2^31`, `1` and total `1` pass the
coverage check although the true sum `2^32 + 1` differs from the total —
the call succeeds where the claim requires an error; and with the server
closed the error is `NotStarted`, not a `GetMinTS` error as the claim's
final clause requires. -/
theorem getMinTS_overflow_cex :
    GetMinTSFromTSOService false ["u1", "u2", "u3"]
        [⟨1, 2 ^ 31, ⟨5, 5, 0⟩⟩, ⟨1, 2 ^ 31, ⟨6, 0, 0⟩⟩, ⟨1, 1, ⟨7, 0, 0⟩⟩]
      = .ok ⟨5, 5, 0⟩ ∧
    (2 ^ 31 + 2 ^ 31 + 1 : Nat) ≠ 1 ∧
    GetMinTSFromTSOService true ["u1"] [] = .error .notStarted ∧
    GetMinTSError.notStarted ≠ .getMinTS .noneResponded := by
  refine ⟨?_, by norm_num, rfl, by simp⟩
  rfl

/-- C4 witness: two allocators agreeing on total 2, each serving 1, one
positive timestamp each — the aggregation succeeds. -/
theorem getMinTS_validation_witness :
    ((false : Bool) = false) ∧ (["u1"] : List String) ≠ [] ∧
    ([⟨2, 1, ⟨5, 5, 0⟩⟩, ⟨2, 1, ⟨3, 1, 0⟩⟩] : List GetMinTSResp) ≠ [] ∧
    servingSumMod [⟨2, 1, ⟨5, 5, 0⟩⟩, ⟨2, 1, ⟨3, 1, 0⟩⟩]
      = headTotal [⟨2, 1, ⟨5, 5, 0⟩⟩, ⟨2, 1, ⟨3, 1, 0⟩⟩] ∧
    ∃ ts, GetMinTSFromTSOService false ["u1"]
        [⟨2, 1, ⟨5, 5, 0⟩⟩, ⟨2, 1, ⟨3, 1, 0⟩⟩] = .ok ts := by
  refine ⟨rfl, by simp, by simp, by decide, ?_⟩
  exact (getMinTS_validation false ["u1"] [⟨2, 1, ⟨5, 5, 0⟩⟩, ⟨2, 1, ⟨3, 1, 0⟩⟩]).2.1
    rfl (by simp) (by simp) (by decide) (by decide) ⟨⟨2, 1, ⟨5, 5, 0⟩⟩, by decide⟩


end PD
